import Mathlib

/-!
Verification of the composition-tree core of the `hacknation26` repository:
the canonical vibe-tree data model, the visual projection and reverse
projection (`ui/src/utils/visualTree.ts`), the structural diff engine
(`ui/src/utils/treeDiff.ts`), the flattener (`flattenTree`) and the
ingestion transform (`ui/src/utils/transform.ts`).

Conventions of the embedding:
* TypeScript interfaces become Lean structures / inductives; `x?: T` and
  `T | null` fields become `Option T`.
* The module-global id counter `_nodeCounter` used by `nodeId()` in
  `types.ts` is made explicit: each function that allocates ids takes the
  current counter value and returns the updated one.
* JS `number` fields are only copied or printed by the code under
  verification, never computed with; they are modelled as `Nat`/`Int`
  (`Rat` for the section weight).
* JS loops that push onto an array become recursive helper functions or
  folds; `Array.prototype.map` with an index becomes an indexed recursion.
* A JS `Set` (insertion-ordered, deduplicating) becomes a list with
  insert-if-absent at the end.
-/

set_option maxHeartbeats 1000000

namespace Vibe

/-- `NodeKind` from `types.ts`. -/
inductive NodeKind where
  | section
  | mood
  | genre
  | instruments
  | texture
  | sonic
  | instrument
  | nuance
  | influence
  | detail
  | custom
deriving DecidableEq, Repr

/-- `VisualNode` from `types.ts`: `id`, `label`, `kind`, `children`. -/
inductive VisualNode where
  | mk (id : String) (label : String) (kind : NodeKind)
      (children : List VisualNode)

def VisualNode.id : VisualNode → String
  | .mk i _ _ _ => i

def VisualNode.label : VisualNode → String
  | .mk _ l _ _ => l

def VisualNode.kind : VisualNode → NodeKind
  | .mk _ _ k _ => k

def VisualNode.children : VisualNode → List VisualNode
  | .mk _ _ _ cs => cs

@[simp] theorem VisualNode.id_mk (i l : String) (k : NodeKind)
    (cs : List VisualNode) : (VisualNode.mk i l k cs).id = i := rfl

@[simp] theorem VisualNode.label_mk (i l : String) (k : NodeKind)
    (cs : List VisualNode) : (VisualNode.mk i l k cs).label = l := rfl

@[simp] theorem VisualNode.kind_mk (i l : String) (k : NodeKind)
    (cs : List VisualNode) : (VisualNode.mk i l k cs).kind = k := rfl

@[simp] theorem VisualNode.children_mk (i l : String) (k : NodeKind)
    (cs : List VisualNode) : (VisualNode.mk i l k cs).children = cs := rfl

mutual

/-- Number of nodes of a visual tree (used to state diff completeness). -/
def countNodes : VisualNode → Nat
  | .mk _ _ _ cs => 1 + countNodesList cs

def countNodesList : List VisualNode → Nat
  | [] => 0
  | c :: cs => countNodes c + countNodesList cs

end

mutual

/-- All ids of a visual tree, in preorder. -/
def idsList : VisualNode → List String
  | .mk i _ _ cs => i :: idsListList cs

def idsListList : List VisualNode → List String
  | [] => []
  | c :: cs => idsList c ++ idsListList cs

end

@[simp] theorem countNodes_mk (i l : String) (k : NodeKind)
    (cs : List VisualNode) :
    countNodes (.mk i l k cs) = 1 + countNodesList cs := by
  rw [countNodes]

@[simp] theorem countNodesList_nil : countNodesList [] = 0 := by
  rw [countNodesList]

@[simp] theorem countNodesList_cons (c : VisualNode) (cs : List VisualNode) :
    countNodesList (c :: cs) = countNodes c + countNodesList cs := by
  rw [countNodesList]

@[simp] theorem idsList_mk (i l : String) (k : NodeKind)
    (cs : List VisualNode) :
    idsList (.mk i l k cs) = i :: idsListList cs := by
  rw [idsList]

@[simp] theorem idsListList_nil : idsListList [] = [] := by
  rw [idsListList]

@[simp] theorem idsListList_cons (c : VisualNode) (cs : List VisualNode) :
    idsListList (c :: cs) = idsList c ++ idsListList cs := by
  rw [idsListList]

/-- Structural induction for `VisualNode` (its nested `List` field makes
the automatically generated recursor inconvenient). -/
theorem VisualNode.ind (P : VisualNode → Prop)
    (step : ∀ i l k cs, (∀ c ∈ cs, P c) → P (.mk i l k cs)) :
    ∀ t, P t := by
  refine (countNodes.mutual_induct P (fun cs => ∀ c ∈ cs, P c) ?_ ?_ ?_).1
  · intro i l k cs ih
    exact step i l k cs ih
  · intro c hc
    cases hc
  · intro c cs ihc ihcs d hd
    cases hd with
    | head => exact ihc
    | tail _ h => exact ihcs _ h

/- ──────────────────────────────────────────────────────────────────
   Canonical fixed-attribute data model (`types.ts`, the typed schema
   generation).
   ────────────────────────────────────────────────────────────────── -/

structure Instrument where
  name : String
  role : String
  character : String
deriving DecidableEq, Repr

structure Mood where
  primary : String
  nuances : List String
deriving DecidableEq, Repr

structure Genre where
  primary : String
  influences : List String
deriving DecidableEq, Repr

/-- `Texture` from `types.ts`; the three fields are string-literal unions
in TypeScript, modelled as plain strings. -/
structure Texture where
  density : String
  movement : String
  space : String
deriving DecidableEq, Repr

structure SectionMetadata where
  tempo_feel : String
  suggested_bpm : Option Int
  key : Option String
  time_signature : Option String
deriving DecidableEq, Repr

structure SectionBranches where
  mood : Mood
  genre : Genre
  instruments : List Instrument
  texture : Texture
  sonic_details : List String
  metadata : SectionMetadata
deriving DecidableEq, Repr

structure Section where
  name : String
  weight : Rat
  branches : SectionBranches
deriving DecidableEq, Repr

/- ──────────────────────────────────────────────────────────────────
   Visual projection and reverse projection (`visualTree.ts`), with the
   global id counter threaded explicitly.
   ────────────────────────────────────────────────────────────────── -/

/-- `nodeId()` from `types.ts`: increments the counter and yields
`vn-<counter>`. -/
def nodeId (c : Nat) : String × Nat :=
  ("vn-" ++ Nat.repr (c + 1), c + 1)

/-- One `labels.map((x) => ({id: nodeId(), label: x, kind, children: []}))`
pass of `sectionToVisualTree`, allocating ids left to right. -/
def allocNodes (labels : List String) (kind : NodeKind) (c : Nat) :
    List VisualNode × Nat :=
  match labels with
  | [] => ([], c)
  | l :: ls =>
    let p := nodeId c
    let rest := allocNodes ls kind p.2
    (.mk p.1 l kind [] :: rest.1, rest.2)

/-- `sectionToVisualTree` from `visualTree.ts`. Allocation order follows
the source: mood nuances, mood node, genre influences, genre node,
instrument leaves, instruments node, texture node, sonic-detail leaves,
sonic node, root. -/
def sectionToVisualTree (sec : Section) (c0 : Nat) : VisualNode × Nat :=
  let b := sec.branches
  let moodCh := allocNodes b.mood.nuances .nuance c0
  let moodP := nodeId moodCh.2
  let moodNode : VisualNode := .mk moodP.1 b.mood.primary .mood moodCh.1
  let genreCh := allocNodes b.genre.influences .influence moodP.2
  let genreP := nodeId genreCh.2
  let genreNode : VisualNode := .mk genreP.1 b.genre.primary .genre genreCh.1
  let instCh := allocNodes (b.instruments.map Instrument.name) .instrument genreP.2
  let instP := nodeId instCh.2
  let instrumentsNode : VisualNode := .mk instP.1 "instruments" .instruments instCh.1
  let texP := nodeId instP.2
  let textureNode : VisualNode :=
    .mk texP.1 (b.texture.density ++ " · " ++ b.texture.movement ++ " · " ++ b.texture.space)
      .texture []
  let sonicCh := allocNodes b.sonic_details .detail texP.2
  let sonicP := nodeId sonicCh.2
  let sonicNode : VisualNode := .mk sonicP.1 "sonic details" .sonic sonicCh.1
  let rootP := nodeId sonicP.2
  (.mk rootP.1 b.mood.primary .section
      [moodNode, genreNode, instrumentsNode, textureNode, sonicNode], rootP.2)

/-- The `child.children.map((c, i) => ({name: c.label, role: ..., character: ...}))`
step of `visualTreeToSection`, with the JS map index made explicit. -/
def reconInstruments (original : List Instrument) : Nat → List VisualNode → List Instrument
  | _, [] => []
  | i, c :: cs =>
    { name := c.label,
      role := ((original[i]?).map Instrument.role).getD "texture",
      character := ((original[i]?).map Instrument.character).getD "" }
      :: reconInstruments original (i + 1) cs

/-- One arm of the `switch (child.kind)` statement in `visualTreeToSection`. -/
def applyVisualChild (original : Section) (sec : Section) (child : VisualNode) : Section :=
  match child.kind with
  | .mood =>
    { sec with branches := { sec.branches with
        mood := { primary := child.label, nuances := child.children.map VisualNode.label } } }
  | .genre =>
    { sec with branches := { sec.branches with
        genre := { primary := child.label, influences := child.children.map VisualNode.label } } }
  | .instruments =>
    { sec with branches := { sec.branches with
        instruments := reconInstruments original.branches.instruments 0 child.children } }
  | .texture => sec
  | .sonic =>
    { sec with branches := { sec.branches with
        sonic_details := child.children.map VisualNode.label } }
  | _ => sec

/-- `visualTreeToSection` from `visualTree.ts`: clone the original section,
write the root label into `mood.primary`, then fold the switch over the
root's children. -/
def visualTreeToSection (node : VisualNode) (original : Section) : Section :=
  let sec0 : Section :=
    { original with branches := { original.branches with
        mood := { original.branches.mood with primary := node.label } } }
  node.children.foldl (applyVisualChild original) sec0

mutual

/-- `editVisualNode` from `visualTree.ts`. -/
def editVisualNode : VisualNode → String → String → VisualNode
  | .mk i l k cs, id, newLabel =>
    if i = id then .mk i newLabel k cs
    else .mk i l k (editVisualNodeList cs id newLabel)

def editVisualNodeList : List VisualNode → String → String → List VisualNode
  | [], _, _ => []
  | c :: cs, id, newLabel =>
    editVisualNode c id newLabel :: editVisualNodeList cs id newLabel

end

mutual

/-- Specification map for `editVisualNode`: replace the label of every
node whose id matches, keeping ids, kinds and structure; under pairwise
distinct ids this is exactly what `editVisualNode` computes. -/
def mapLabelAt (id newLabel : String) : VisualNode → VisualNode
  | .mk j lab k cs =>
    .mk j (if j = id then newLabel else lab) k (mapLabelAtList id newLabel cs)

def mapLabelAtList (id newLabel : String) : List VisualNode → List VisualNode
  | [] => []
  | c :: cs => mapLabelAt id newLabel c :: mapLabelAtList id newLabel cs

end

mutual

/-- Erase every id of a visual tree (ids replaced by `""`), keeping
labels, kinds and structure: the id-independent shape of a tree. -/
def stripIds : VisualNode → VisualNode
  | .mk _ l k cs => .mk "" l k (stripIdsList cs)

def stripIdsList : List VisualNode → List VisualNode
  | [] => []
  | c :: cs => stripIds c :: stripIdsList cs

end

/-- Pairwise distinctness of all node ids in a visual tree. -/
def distinctIds (t : VisualNode) : Prop := (idsList t).Nodup

instance (t : VisualNode) : Decidable (distinctIds t) := by
  unfold distinctIds
  infer_instance

theorem sizeOf_filter_le (p : VisualNode → Bool) (l : List VisualNode) :
    sizeOf (l.filter p) ≤ sizeOf l := by
  induction l with
  | nil => simp
  | cons c cs ih =>
    by_cases h : p c
    · simp only [List.filter_cons, h, if_true]
      simp only [List.cons.sizeOf_spec]
      omega
    · simp only [List.filter_cons, h]
      simp only [Bool.false_eq_true, if_false, List.cons.sizeOf_spec]
      omega

mutual

/-- `deleteVisualNode` from `visualTree.ts`: filter the matching child out
of every children list, recursing into the survivors. -/
def deleteVisualNode : VisualNode → String → VisualNode
  | .mk i l k cs, id =>
    .mk i l k (deleteVisualNodeList (cs.filter (fun c => c.id != id)) id)
  termination_by t => sizeOf t
  decreasing_by
    have := sizeOf_filter_le (fun c => c.id != id) cs
    simp only [VisualNode.mk.sizeOf_spec]
    omega

def deleteVisualNodeList : List VisualNode → String → List VisualNode
  | [], _ => []
  | c :: cs, id => deleteVisualNode c id :: deleteVisualNodeList cs id
  termination_by l => sizeOf l
  decreasing_by
    · simp only [List.cons.sizeOf_spec]
      omega
    · simp only [List.cons.sizeOf_spec]
      omega

end

/- ──────────────────────────────────────────────────────────────────
   Diff engine (`treeDiff.ts`).
   ────────────────────────────────────────────────────────────────── -/

inductive DiffStatus where
  | added
  | removed
  | changed
  | unchanged
deriving DecidableEq, Repr

/-- `NodeDiff` from `treeDiff.ts` (`label` and `childrenDiff` are optional
fields in the TypeScript interface). -/
inductive NodeDiff where
  | mk (id : String) (status : DiffStatus) (label : Option String)
      (childrenDiff : Option (List NodeDiff))

def NodeDiff.id : NodeDiff → String
  | .mk i _ _ _ => i

def NodeDiff.status : NodeDiff → DiffStatus
  | .mk _ s _ _ => s

def NodeDiff.label : NodeDiff → Option String
  | .mk _ _ l _ => l

def NodeDiff.childrenDiff : NodeDiff → Option (List NodeDiff)
  | .mk _ _ _ cd => cd

@[simp] theorem NodeDiff.diff_id_mk (i : String) (s : DiffStatus) (l : Option String)
    (cd : Option (List NodeDiff)) : (NodeDiff.mk i s l cd).id = i := rfl

@[simp] theorem NodeDiff.status_mk (i : String) (s : DiffStatus) (l : Option String)
    (cd : Option (List NodeDiff)) : (NodeDiff.mk i s l cd).status = s := rfl

@[simp] theorem NodeDiff.diff_label_mk (i : String) (s : DiffStatus) (l : Option String)
    (cd : Option (List NodeDiff)) : (NodeDiff.mk i s l cd).label = l := rfl

@[simp] theorem NodeDiff.childrenDiff_mk (i : String) (s : DiffStatus) (l : Option String)
    (cd : Option (List NodeDiff)) : (NodeDiff.mk i s l cd).childrenDiff = cd := rfl

mutual

/-- The `findNodeById` helper defined inside `diffTrees`: depth-first
search of the whole previous tree for a node with the given id. -/
def findNodeById : VisualNode → String → Option VisualNode
  | n@(.mk i _ _ cs), id => if i = id then some n else findNodeByIdList cs id

def findNodeByIdList : List VisualNode → String → Option VisualNode
  | [], _ => none
  | c :: cs, id =>
    match findNodeById c id with
    | some found => some found
    | none => findNodeByIdList cs id

end

theorem VisualNode.sizeOf_children_lt (t : VisualNode) :
    sizeOf t.children < sizeOf t := by
  cases t with
  | mk i l k cs =>
    simp only [VisualNode.children_mk, VisualNode.mk.sizeOf_spec]
    omega

theorem list_sizeOf_pos (l : List VisualNode) : 1 ≤ sizeOf l := by
  cases l with
  | nil => simp
  | cons c cs => simp only [List.cons.sizeOf_spec]; omega

theorem findNodeById_sizeOf_le :
    ∀ (t : VisualNode) (i : String), ∀ r, findNodeById t i = some r → sizeOf r ≤ sizeOf t := by
  refine (findNodeById.mutual_induct
    (fun t i => ∀ r, findNodeById t i = some r → sizeOf r ≤ sizeOf t)
    (fun l i => ∀ r, findNodeByIdList l i = some r → sizeOf r < sizeOf l)
    ?_ ?_ ?_ ?_ ?_).1
  · intro label kind cs id r h
    simp only [findNodeById, eq_self_iff_true, if_true, Option.some.injEq] at h
    subst h
    exact Nat.le_refl _
  · intro i label kind cs id hne ih r h
    simp only [findNodeById, if_neg hne] at h
    have := ih r h
    simp only [VisualNode.mk.sizeOf_spec]
    omega
  · intro i r h
    simp only [findNodeByIdList] at h
    exact Option.noConfusion h
  · intro c cs id found hfound ih r h
    simp only [findNodeByIdList, hfound, Option.some.injEq] at h
    subst h
    have := ih found hfound
    simp only [List.cons.sizeOf_spec]
    omega
  · intro c cs id hnone ihc ihcs r h
    simp only [findNodeByIdList, hnone] at h
    have := ihcs r h
    simp only [List.cons.sizeOf_spec]
    omega

theorem find?_sizeOf_lt {p : VisualNode → Bool} {l : List VisualNode} {r : VisualNode}
    (h : l.find? p = some r) : sizeOf r < sizeOf l :=
  List.sizeOf_lt_of_mem (List.mem_of_find?_eq_some h)

mutual

/-- `diffTrees` from `treeDiff.ts`. The two `for` loops over the current
and previous children lists become `diffCurrentChildren` and
`diffRemovedChildren`; `children.map((child) => diffTrees(child, null))`
becomes `diffTreesAllNull`. -/
def diffTrees (currentTree : VisualNode) (previousTree : Option VisualNode) : NodeDiff :=
  match previousTree with
  | none =>
    -- No previous tree, everything is added
    .mk currentTree.id .added (some currentTree.label)
      (some (diffTreesAllNull currentTree.children))
  | some prev =>
    match hfind : findNodeById prev currentTree.id with
    | none =>
      -- Node is new
      .mk currentTree.id .added (some currentTree.label)
        (some (diffTreesAllNull currentTree.children))
    | some prevNode =>
      -- Node exists, check if it changed (label comparison only)
      let status : DiffStatus :=
        if currentTree.label = prevNode.label then .unchanged else .changed
      let curPart := diffCurrentChildren currentTree.children prevNode.children
      let remPart := diffRemovedChildren prevNode.children currentTree.children
      let childrenDiff := curPart ++ remPart
      .mk currentTree.id status (some currentTree.label)
        (some (if childrenDiff.length > 0 then childrenDiff
               else diffTreesAllNull currentTree.children))
  termination_by sizeOf currentTree + sizeOf previousTree
  decreasing_by
  · have := VisualNode.sizeOf_children_lt currentTree
    simp only [Option.none.sizeOf_spec]
    omega
  · have := VisualNode.sizeOf_children_lt currentTree
    simp only [Option.some.sizeOf_spec]
    omega
  · have h1 := VisualNode.sizeOf_children_lt currentTree
    have h2 := findNodeById_sizeOf_le prev currentTree.id prevNode hfind
    have h3 := VisualNode.sizeOf_children_lt prevNode
    simp only [Option.some.sizeOf_spec]
    omega
  · have h2 := findNodeById_sizeOf_le prev currentTree.id prevNode hfind
    have h3 := VisualNode.sizeOf_children_lt prevNode
    have h4 := VisualNode.sizeOf_children_lt currentTree
    simp only [Option.some.sizeOf_spec]
    omega
  · have := VisualNode.sizeOf_children_lt currentTree
    simp only [Option.some.sizeOf_spec]
    omega

def diffTreesAllNull : List VisualNode → List NodeDiff
  | [] => []
  | c :: cs => diffTrees c none :: diffTreesAllNull cs
  termination_by l => sizeOf l
  decreasing_by
  · simp only [Option.none.sizeOf_spec, List.cons.sizeOf_spec]
    have := list_sizeOf_pos cs
    omega
  · simp only [List.cons.sizeOf_spec]
    omega

def diffCurrentChildren : List VisualNode → List VisualNode → List NodeDiff
  | [], _ => []
  | c :: cs, prevChildren =>
    diffTrees c (prevChildren.find? (fun p => p.id == c.id))
      :: diffCurrentChildren cs prevChildren
  termination_by l prevChildren => sizeOf l + sizeOf prevChildren
  decreasing_by
  · rcases h : prevChildren.find? (fun p => p.id == c.id) with _ | r
    · simp only [h, Option.none.sizeOf_spec, List.cons.sizeOf_spec]
      have := list_sizeOf_pos prevChildren
      omega
    · have := find?_sizeOf_lt h
      simp only [h, Option.some.sizeOf_spec, List.cons.sizeOf_spec]
      omega
  · simp only [List.cons.sizeOf_spec]
    omega

def diffRemovedChildren : List VisualNode → List VisualNode → List NodeDiff
  | [], _ => []
  | p :: ps, curChildren =>
    if curChildren.any (fun c => c.id == p.id) then diffRemovedChildren ps curChildren
    else
      .mk p.id .removed (some p.label) (some (diffTreesAllNull p.children))
        :: diffRemovedChildren ps curChildren
  termination_by l _ => sizeOf l
  decreasing_by
  · simp only [List.cons.sizeOf_spec]
    omega
  · have h1 := VisualNode.sizeOf_children_lt c
    simp only [List.cons.sizeOf_spec]
    omega
  · simp only [List.cons.sizeOf_spec]
    omega

end

mutual

/-- `flattenDiff` from `treeDiff.ts`: the node itself followed by the
flattening of each child diff, in order. -/
def flattenDiff : NodeDiff → List NodeDiff
  | d@(.mk _ _ _ cd) => d :: flattenDiffOpt cd

def flattenDiffOpt : Option (List NodeDiff) → List NodeDiff
  | none => []
  | some l => flattenDiffList l

def flattenDiffList : List NodeDiff → List NodeDiff
  | [] => []
  | d :: ds => flattenDiff d ++ flattenDiffList ds

end

/-- Structural induction for `NodeDiff`. -/
theorem NodeDiff.diff_ind (P : NodeDiff → Prop)
    (step : ∀ i s l cd, (∀ list ∈ cd, ∀ d ∈ list, P d) → P (.mk i s l cd)) :
    ∀ d, P d := by
  refine (flattenDiff.mutual_induct P
    (fun cd => ∀ list ∈ cd, ∀ d ∈ list, P d)
    (fun l => ∀ d ∈ l, P d) ?_ ?_ ?_ ?_ ?_).1
  · intro i s lab cd ih
    exact step i s lab cd ih
  · intro list hlist
    cases hlist
  · intro l ih list hlist
    cases hlist
    exact ih
  · intro d hd
    cases hd
  · intro d ds ihd ihds e he
    cases he with
    | head => exact ihd
    | tail _ h => exact ihds _ h

mutual

/-- Does every node of a diff tree carry status `added`? -/
def allAdded : NodeDiff → Bool
  | .mk _ s _ cd => (s == .added) && allAddedOpt cd

def allAddedOpt : Option (List NodeDiff) → Bool
  | none => true
  | some l => allAddedList l

def allAddedList : List NodeDiff → Bool
  | [] => true
  | d :: ds => allAdded d && allAddedList ds

end

mutual

/-- Does every node of a diff tree carry status `removed`? -/
def allRemoved : NodeDiff → Bool
  | .mk _ s _ cd => (s == .removed) && allRemovedOpt cd

def allRemovedOpt : Option (List NodeDiff) → Bool
  | none => true
  | some l => allRemovedList l

def allRemovedList : List NodeDiff → Bool
  | [] => true
  | d :: ds => allRemoved d && allRemovedList ds

end

mutual

/-- Does every node of a diff tree carry status `unchanged`? -/
def allUnchanged : NodeDiff → Bool
  | .mk _ s _ cd => (s == .unchanged) && allUnchangedOpt cd

def allUnchangedOpt : Option (List NodeDiff) → Bool
  | none => true
  | some l => allUnchangedList l

def allUnchangedList : List NodeDiff → Bool
  | [] => true
  | d :: ds => allUnchanged d && allUnchangedList ds

end

/- ──────────────────────────────────────────────────────────────────
   Loose schema generation: `types.ts` (`part_008`) declares
   `SectionBranches = Record<string, unknown>`.  We model the well-formed
   values this record takes in the repository: the optional fixed
   attribute groups (each possibly absent/null, with optional inner
   fields, matching the `"field" in x` guards of the flattener) plus the
   generic `tree` subtree produced by `transform.ts`.
   ────────────────────────────────────────────────────────────────── -/

namespace Loose

/-- A well-formed JS value appearing in `SongNode.value` / metadata
entries: a string, a number, or an array. -/
inductive JsValue where
  | str (s : String)
  | num (n : Int)
  | arr (elems : List JsValue)

mutual

/-- JS template-literal stringification (`${v}`): strings pass through,
numbers print in decimal, arrays join their elements with `,`. -/
def jsToString : JsValue → String
  | .str s => s
  | .num n => n.repr
  | .arr l => String.intercalate "," (jsToStringList l)

def jsToStringList : List JsValue → List String
  | [] => []
  | v :: vs => jsToString v :: jsToStringList vs

end

/-- The metadata record of a `SongNode` (`Record<string, unknown>`),
modelled by the keys the repository reads, each optional. -/
structure SongMeta where
  overall_arc : Option String := none
  tags : Option (List String) := none
  duration_seconds : Option Nat := none
  role : Option String := none
  character : Option String := none

/-- `Object.entries` of the metadata record, present keys in declaration
order, values as JS values. -/
def SongMeta.entries (m : SongMeta) : List (String × JsValue) :=
  (match m.overall_arc with | some s => [("overall_arc", JsValue.str s)] | none => []) ++
  (match m.tags with | some l => [("tags", JsValue.arr (l.map JsValue.str))] | none => []) ++
  (match m.duration_seconds with | some n => [("duration_seconds", JsValue.num n)] | none => []) ++
  (match m.role with | some s => [("role", JsValue.str s)] | none => []) ++
  (match m.character with | some s => [("character", JsValue.str s)] | none => [])

/-- `SongNode` from `transform.ts` / `part_006`: `name`, optional `value`,
optional `children`, optional `metadata`. -/
inductive SongNode where
  | mk (name : String) (value : Option JsValue)
      (children : Option (List SongNode)) (metadata : Option SongMeta)

def SongNode.name : SongNode → String
  | .mk n _ _ _ => n

def SongNode.value : SongNode → Option JsValue
  | .mk _ v _ _ => v

def SongNode.children : SongNode → Option (List SongNode)
  | .mk _ _ cs _ => cs

def SongNode.metadata : SongNode → Option SongMeta
  | .mk _ _ _ m => m

/-- Loose mood group: both fields optional (the flattener checks
`"primary" in b.mood` / `"nuances" in b.mood` separately). -/
structure Mood where
  primary : Option String := none
  nuances : Option (List String) := none

structure Genre where
  primary : Option String := none
  influences : Option (List String) := none

structure Instrument where
  name : Option String := none
  role : Option String := none
  character : Option String := none

structure Texture where
  density : Option String := none
  movement : Option String := none
  space : Option String := none

structure SectionMetadata where
  tempo_feel : Option String := none
  suggested_bpm : Option Int := none
  key : Option String := none
  time_signature : Option String := none

/-- The loose `SectionBranches` record restricted to the keys the
repository reads. Any key may be absent. -/
structure SectionBranches where
  mood : Option Mood := none
  genre : Option Genre := none
  instruments : Option (List Instrument) := none
  texture : Option Texture := none
  sonic_details : Option (List String) := none
  metadata : Option SectionMetadata := none
  tree : Option SongNode := none

structure Section where
  name : String
  weight : Rat
  branches : SectionBranches

/-- Loose `GlobalSettings`: all three fields optional. -/
structure GlobalSettings where
  overall_arc : Option String := none
  tags : Option (List String) := none
  duration_seconds : Option Nat := none

structure VibeTreeRoot where
  concept : String
  image_interpretation : Option String := none
  sections : List Section
  global : GlobalSettings

structure VibeTree where
  root : VibeTreeRoot

/- ── `flattenSongNode` (`part_006`, tree mode) ─────────────────── -/

/-- One metadata entry line of `renderNode`: arrays join with `", "`,
other values stringify. -/
def renderMetaEntry (kv : String × JsValue) : String :=
  match kv.2 with
  | .arr l => "**" ++ kv.1 ++ "**: " ++ String.intercalate ", " (l.map jsToString)
  | v => "**" ++ kv.1 ++ "**: " ++ jsToString v

mutual

/-- `renderNode` from `flattenSongNode` (`part_006`): heading, optional
value, optional metadata block, then children at depth + 1. Returns the
pushed lines. -/
def renderNode (n : SongNode) (depth : Nat) : List String :=
  match n with
  | .mk name value children metadata =>
    let heading := String.join (List.replicate (min (depth + 1) 6) "#")
    let valueLines : List String :=
      match value with
      | none => []
      | some (.arr elems) =>
        let values := elems.filterMap (fun v =>
          match v with
          | .str s => if s.length > 0 then some s else none
          | _ => none)
        if values.length > 0 then "" :: values.map (fun v => "- " ++ v) else []
      | some (.str s) => if s.length > 0 then ["", s] else []
      | some (.num _) => []
    let metaLines : List String :=
      match metadata with
      | none => []
      | some m =>
        if m.entries.length > 0 then
          ["", String.intercalate "  \n" (m.entries.map renderMetaEntry)]
        else []
    let childLines : List String :=
      match children with
      | none => []
      | some l => if l.length > 0 then "" :: renderChildren l (depth + 1) else []
    (heading ++ " " ++ name) :: (valueLines ++ metaLines ++ childLines)

def renderChildren (l : List SongNode) (depth : Nat) : List String :=
  match l with
  | [] => []
  | c :: cs => renderNode c depth ++ [""] ++ renderChildren cs depth

end

/-- `flattenSongNode` from `part_006`: empty string for an absent node,
otherwise the rendered lines joined with newlines. -/
def flattenSongNode : Option SongNode → String
  | none => ""
  | some n => String.intercalate "\n" (renderNode n 0)

/- ── `flattenTree` (`part_006`, legacy mode helpers) ───────────── -/

/-- JS `Set.add`: append if not already present (insertion order kept). -/
def addTag (l : List String) (s : String) : List String :=
  if s ∈ l then l else l ++ [s]

def addTags (l : List String) (ss : List String) : List String :=
  ss.foldl addTag l

/-- The tag-collection loop body of `flattenTree` for one section:
genre primary (if present and truthy), genre influences, mood primary
(if present and truthy), instrument names. -/
def sectionTags (acc : List String) (s : Section) : List String :=
  let b := s.branches
  let acc1 :=
    match b.genre with
    | some g =>
      match g.primary with
      | some p => if p ≠ "" then addTag acc p else acc
      | none => acc
    | none => acc
  let acc2 :=
    match b.genre with
    | some g =>
      match g.influences with
      | some infl => addTags acc1 infl
      | none => acc1
    | none => acc1
  let acc3 :=
    match b.mood with
    | some m =>
      match m.primary with
      | some p => if p ≠ "" then addTag acc2 p else acc2
      | none => acc2
    | none => acc2
  match b.instruments with
  | some insts =>
    insts.foldl (fun a i =>
      match i.name with
      | some n => addTag a n
      | none => a) acc3
  | none => acc3

/-- `section.name.charAt(0).toUpperCase() + section.name.slice(1)`. -/
def capitalize (s : String) : String :=
  match s.data with
  | [] => ""
  | c :: cs => String.mk (c.toUpper :: cs)

/-- The `details` array collected for one section in the Lyrics block:
`"{character} {name}"` per instrument with both fields present, then the
sonic details, then the joined mood nuances if non-empty. -/
def sectionDetails (s : Section) : List String :=
  let b := s.branches
  let d1 :=
    match b.instruments with
    | some insts =>
      insts.filterMap (fun i =>
        match i.name, i.character with
        | some n, some ch => some (ch ++ " " ++ n)
        | _, _ => none)
    | none => []
  let d2 :=
    match b.sonic_details with
    | some l => l
    | none => []
  let d3 :=
    match b.mood with
    | some m =>
      match m.nuances with
      | some nuances =>
        if nuances.length > 0 then [String.intercalate ", " nuances] else []
      | none => []
    | none => []
  d1 ++ d2 ++ d3

/-- The three Lyrics-block lines pushed per section. -/
def sectionLines (s : Section) : List String :=
  ["[" ++ capitalize s.name ++ "]",
   "(" ++ String.intercalate ", " (sectionDetails s) ++ ")",
   ""]

/-- The first-non-null metadata scan of `flattenTree`:
`(bpm, key, timeSig)` folded over the sections. -/
def scanMeta (st : Option Int × Option String × Option String) (s : Section) :
    Option Int × Option String × Option String :=
  match s.branches.metadata with
  | none => st
  | some m => (st.1 <|> m.suggested_bpm, st.2.1 <|> m.key, st.2.2 <|> m.time_signature)

/-- The `hasTreeNode` guard of `flattenTree` (`part_006`):
`root.sections.length > 0 && root.sections[0].branches.tree && ...`. -/
def hasTreeNode (root : VibeTreeRoot) : Bool :=
  root.sections.length > 0 &&
    (match root.sections[0]? with
     | some s0 => s0.branches.tree.isSome
     | none => false)

/-- A JS property access that is only safe when the value is present;
absent access is a `TypeError`. -/
def jsGet : Option α → Except String α
  | some a => .ok a
  | none => .error "TypeError: cannot read properties of undefined"

/-- `flattenTree` from `part_006`, as the list of pushed lines (the
source joins them with `"\n"` at the end, see `flattenTree`).  The
unchecked accesses `root.sections[0].branches.tree as SongNode` under
the `hasTreeNode` guard go through `jsGet`. -/
def flattenLines (tree : VibeTree) : Except String (List String) :=
  let root := tree.root
  if hasTreeNode root then do
    let s0 ← jsGet root.sections[0]?
    let songNodeTree ← jsGet s0.branches.tree
    pure [flattenSongNode (some songNodeTree)]
  else
    let tagList := root.sections.foldl sectionTags (addTags [] (root.global.tags.getD []))
    let lyricsLines := (root.sections.map sectionLines).flatten
    let scanned := root.sections.foldl scanMeta (none, none, none)
    pure
      (["Tags: " ++ String.intercalate ", " tagList, "", "Lyrics:"]
        ++ lyricsLines
        ++ (match scanned.1 with | some b => ["BPM: " ++ b.repr] | none => [])
        ++ (match scanned.2.1 with | some k => ["Key: " ++ k] | none => [])
        ++ (match scanned.2.2 with | some t => ["Time Signature: " ++ t] | none => [])
        ++ ["Duration: " ++
              (match root.global.duration_seconds with
               | some d => Nat.repr d
               | none => "undefined") ++ "s"])

/-- `flattenTree` from `part_006`: the pushed lines joined with `"\n"`. -/
def flattenTree (tree : VibeTree) : Except String String :=
  (flattenLines tree).map (String.intercalate "\n")

/- ── `transformSongCharacteristicsToVibeTree` (`transform.ts`) ──── -/

/-- The unwrapped `SongCharacteristics` payload: an object that may or
may not have a `root` property. -/
structure RawChars where
  root : Option SongNode := none

/-- The raw API response object: may carry a `vibe_tree` wrapper and may
itself have a `root` property; `none` at the outer level models a
null/undefined response. -/
structure RawData where
  vibe_tree : Option RawChars := none
  root : Option SongNode := none

/-- JS `x || default` for a string-valued read (empty string is falsy). -/
def jsStrOr (o : Option String) (d : String) : String :=
  match o with
  | some s => if s = "" then d else s
  | none => d

/-- JS `x || default` for a number-valued read (`0` is falsy). -/
def jsNatOr (o : Option Nat) (d : Nat) : Nat :=
  match o with
  | some n => if n = 0 then d else n
  | none => d

/-- `transformSongCharacteristicsToVibeTree` from `transform.ts`:
unwrap `data?.vibe_tree || data`, fail loudly when the payload or its
`root` is missing, otherwise build a one-section `VibeTree` that stores
the whole tree under `branches.tree`. -/
def transformSongCharacteristicsToVibeTree (data : Option RawData) :
    Except String VibeTree :=
  match data with
  | none => .error "No vibe_tree data in API response"
  | some d =>
    match (match d.vibe_tree with | some v => v.root | none => d.root : Option SongNode) with
    | none => .error "Invalid SongCharacteristics: missing root property"
    | some root =>
      .ok
        { root :=
          { concept := if root.name = "" then "Untitled Composition" else root.name,
            image_interpretation := none,
            sections :=
              [{ name := if root.name = "" then "Untitled" else root.name,
                 weight := 1,
                 branches := { tree := some root } }],
            global :=
              { overall_arc :=
                  some (jsStrOr (root.metadata.bind SongMeta.overall_arc) "evolving journey"),
                tags := some ((root.metadata.bind SongMeta.tags).getD []),
                duration_seconds :=
                  some (jsNatOr (root.metadata.bind SongMeta.duration_seconds) 180) } } }

end Loose

/- ──────────────────────────────────────────────────────────────────
   Decimal-representation facts: `Nat.repr` is injective, hence the
   `vn-<n>` ids minted by `nodeId` are pairwise distinct for distinct
   counter values.
   ────────────────────────────────────────────────────────────────── -/

/-- Numeric value of a decimal digit character. -/
def chVal (c : Char) : Nat := c.toNat - 48

/-- Folding one more decimal number onto an accumulator, digit by digit;
the reading counterpart of `Nat.toDigitsCore`. -/
def pushNum (acc n : Nat) : Nat :=
  if n < 10 then acc * 10 + n
  else pushNum acc (n / 10) * 10 + n % 10
  termination_by n
  decreasing_by exact Nat.div_lt_self (by omega) (by omega)

theorem pushNum_zero (n : Nat) : pushNum 0 n = n := by
  induction n using Nat.strong_induction_on with
  | _ n ih =>
    rw [pushNum]
    by_cases h : n < 10
    · simp [h]
    · simp only [h, if_false]
      rw [ih (n / 10) (Nat.div_lt_self (by omega) (by omega))]
      omega

theorem chVal_digitChar (d : Nat) (h : d < 10) : chVal (Nat.digitChar d) = d := by
  interval_cases d <;> rfl

theorem foldl_toDigitsCore (f : Nat) : ∀ (n : Nat) (rest : List Char) (acc : Nat), n ≤ f →
    (Nat.toDigitsCore 10 (f + 1) n rest).foldl (fun a c => a * 10 + chVal c) acc =
      rest.foldl (fun a c => a * 10 + chVal c) (pushNum acc n) := by
  induction f with
  | zero =>
    intro n rest acc h
    have hn : n = 0 := by omega
    subst hn
    rw [Nat.toDigitsCore]
    rw [if_pos (by norm_num)]
    rw [List.foldl_cons]
    have h1 : chVal (Nat.digitChar (0 % 10)) = 0 := by decide
    rw [h1, pushNum]
    simp
  | succ f ih =>
    intro n rest acc h
    rw [Nat.toDigitsCore]
    by_cases h0 : n / 10 = 0
    · rw [if_pos h0]
      rw [List.foldl_cons]
      rw [chVal_digitChar (n % 10) (by omega)]
      have hn : n % 10 = n := by omega
      rw [hn, pushNum, if_pos (by omega : n < 10)]
    · rw [if_neg h0]
      rw [ih (n / 10) _ _ (by omega)]
      rw [List.foldl_cons]
      rw [chVal_digitChar (n % 10) (by omega)]
      have hpu : pushNum acc n = pushNum acc (n / 10) * 10 + n % 10 := by
        rw [pushNum]
        simp [show ¬ n < 10 by omega]
      rw [hpu]

theorem listVal_toDigits (n : Nat) :
    (Nat.toDigits 10 n).foldl (fun a c => a * 10 + chVal c) 0 = n := by
  rw [Nat.toDigits]
  rw [foldl_toDigitsCore n n [] 0 (Nat.le_refl n)]
  simp [pushNum_zero]

theorem natRepr_injective {m n : Nat} (h : Nat.repr m = Nat.repr n) : m = n := by
  have hd : Nat.toDigits 10 m = Nat.toDigits 10 n := by
    have h2 := congrArg String.data h
    simpa [Nat.repr, List.asString] using h2
  rw [← listVal_toDigits m, hd, listVal_toDigits n]

theorem vnId_injective {m n : Nat} (h : "vn-" ++ Nat.repr m = "vn-" ++ Nat.repr n) :
    m = n := by
  have h2 := congrArg String.data h
  simp only [String.data_append] at h2
  have h3 := List.append_cancel_left h2
  exact natRepr_injective (by
    apply String.ext
    exact h3)

/- ──────────────────────────────────────────────────────────────────
   Equation lemmas for the diff engine (the well-founded definitions do
   not unfold definitionally).
   ────────────────────────────────────────────────────────────────── -/

@[simp] theorem diffTreesAllNull_nil : diffTreesAllNull [] = [] := by
  rw [diffTreesAllNull]

@[simp] theorem diffTreesAllNull_cons (c : VisualNode) (cs : List VisualNode) :
    diffTreesAllNull (c :: cs) = diffTrees c none :: diffTreesAllNull cs := by
  rw [diffTreesAllNull]

@[simp] theorem diffCurrentChildren_nil (prevChildren : List VisualNode) :
    diffCurrentChildren [] prevChildren = [] := by
  rw [diffCurrentChildren]

@[simp] theorem diffCurrentChildren_cons (c : VisualNode) (cs prevChildren : List VisualNode) :
    diffCurrentChildren (c :: cs) prevChildren =
      diffTrees c (prevChildren.find? (fun p => p.id == c.id))
        :: diffCurrentChildren cs prevChildren := by
  rw [diffCurrentChildren]

@[simp] theorem diffRemovedChildren_nil (curChildren : List VisualNode) :
    diffRemovedChildren [] curChildren = [] := by
  rw [diffRemovedChildren]

theorem diffRemovedChildren_cons (p : VisualNode) (ps curChildren : List VisualNode) :
    diffRemovedChildren (p :: ps) curChildren =
      if curChildren.any (fun c => c.id == p.id) then diffRemovedChildren ps curChildren
      else
        .mk p.id .removed (some p.label) (some (diffTreesAllNull p.children))
          :: diffRemovedChildren ps curChildren := by
  rw [diffRemovedChildren]

theorem diffTrees_none_eq (t : VisualNode) :
    diffTrees t none =
      .mk t.id .added (some t.label) (some (diffTreesAllNull t.children)) := by
  rw [diffTrees]

theorem diffTrees_some_notfound (cur prev : VisualNode)
    (h : findNodeById prev cur.id = none) :
    diffTrees cur (some prev) =
      .mk cur.id .added (some cur.label) (some (diffTreesAllNull cur.children)) := by
  rw [diffTrees]
  split
  · rfl
  · rename_i pn heq
    rw [h] at heq
    exact Option.noConfusion heq

theorem diffTrees_some_found (cur prev pn : VisualNode)
    (h : findNodeById prev cur.id = some pn) :
    diffTrees cur (some prev) =
      .mk cur.id (if cur.label = pn.label then .unchanged else .changed) (some cur.label)
        (some
          (if (diffCurrentChildren cur.children pn.children
                ++ diffRemovedChildren pn.children cur.children).length > 0
           then diffCurrentChildren cur.children pn.children
                ++ diffRemovedChildren pn.children cur.children
           else diffTreesAllNull cur.children)) := by
  rw [diffTrees]
  split
  · rename_i heq
    rw [h] at heq
    exact Option.noConfusion heq
  · rename_i pn2 heq
    rw [h] at heq
    injection heq with heq2
    subst heq2
    rfl

/- Equation lemmas for the structural mutual definitions. -/

@[simp] theorem allAdded_mk (i : String) (s : DiffStatus) (l : Option String)
    (cd : Option (List NodeDiff)) :
    allAdded (.mk i s l cd) = ((s == .added) && allAddedOpt cd) := by
  rw [allAdded]

@[simp] theorem allAddedOpt_none : allAddedOpt none = true := by
  rw [allAddedOpt]

@[simp] theorem allAddedOpt_some (l : List NodeDiff) :
    allAddedOpt (some l) = allAddedList l := by
  rw [allAddedOpt]

@[simp] theorem allAddedList_nil : allAddedList [] = true := by
  rw [allAddedList]

@[simp] theorem allAddedList_cons (d : NodeDiff) (ds : List NodeDiff) :
    allAddedList (d :: ds) = (allAdded d && allAddedList ds) := by
  rw [allAddedList]

@[simp] theorem allRemoved_mk (i : String) (s : DiffStatus) (l : Option String)
    (cd : Option (List NodeDiff)) :
    allRemoved (.mk i s l cd) = ((s == .removed) && allRemovedOpt cd) := by
  rw [allRemoved]

@[simp] theorem allRemovedOpt_none : allRemovedOpt none = true := by
  rw [allRemovedOpt]

@[simp] theorem allRemovedOpt_some (l : List NodeDiff) :
    allRemovedOpt (some l) = allRemovedList l := by
  rw [allRemovedOpt]

@[simp] theorem allRemovedList_nil : allRemovedList [] = true := by
  rw [allRemovedList]

@[simp] theorem allRemovedList_cons (d : NodeDiff) (ds : List NodeDiff) :
    allRemovedList (d :: ds) = (allRemoved d && allRemovedList ds) := by
  rw [allRemovedList]

@[simp] theorem allUnchanged_mk (i : String) (s : DiffStatus) (l : Option String)
    (cd : Option (List NodeDiff)) :
    allUnchanged (.mk i s l cd) = ((s == .unchanged) && allUnchangedOpt cd) := by
  rw [allUnchanged]

@[simp] theorem allUnchangedOpt_none : allUnchangedOpt none = true := by
  rw [allUnchangedOpt]

@[simp] theorem allUnchangedOpt_some (l : List NodeDiff) :
    allUnchangedOpt (some l) = allUnchangedList l := by
  rw [allUnchangedOpt]

@[simp] theorem allUnchangedList_nil : allUnchangedList [] = true := by
  rw [allUnchangedList]

@[simp] theorem allUnchangedList_cons (d : NodeDiff) (ds : List NodeDiff) :
    allUnchangedList (d :: ds) = (allUnchanged d && allUnchangedList ds) := by
  rw [allUnchangedList]

@[simp] theorem flattenDiff_mk (i : String) (s : DiffStatus) (l : Option String)
    (cd : Option (List NodeDiff)) :
    flattenDiff (.mk i s l cd) = .mk i s l cd :: flattenDiffOpt cd := by
  rw [flattenDiff]

@[simp] theorem flattenDiffOpt_none : flattenDiffOpt none = [] := by
  rw [flattenDiffOpt]

@[simp] theorem flattenDiffOpt_some (l : List NodeDiff) :
    flattenDiffOpt (some l) = flattenDiffList l := by
  rw [flattenDiffOpt]

@[simp] theorem flattenDiffList_nil : flattenDiffList [] = [] := by
  rw [flattenDiffList]

@[simp] theorem flattenDiffList_cons (d : NodeDiff) (ds : List NodeDiff) :
    flattenDiffList (d :: ds) = flattenDiff d ++ flattenDiffList ds := by
  rw [flattenDiffList]

/- Helper lemmas: the `diff(t, null)` subtree is all-`added`, and its
flattening counts the nodes of `t`. -/

theorem allAddedList_diffTreesAllNull (cs : List VisualNode)
    (ih : ∀ c ∈ cs, allAdded (diffTrees c none) = true) :
    allAddedList (diffTreesAllNull cs) = true := by
  induction cs with
  | nil => simp
  | cons c cs ihl =>
    rw [diffTreesAllNull_cons, allAddedList_cons]
    rw [ih c (by simp)]
    rw [ihl (fun x hx => ih x (by simp [hx]))]
    rfl

theorem allAdded_diffTrees_none (t : VisualNode) :
    allAdded (diffTrees t none) = true := by
  induction t using VisualNode.ind with
  | step i l k cs ih =>
    rw [diffTrees_none_eq]
    simp only [VisualNode.id_mk, VisualNode.label_mk, VisualNode.children_mk,
      allAdded_mk, allAddedOpt_some]
    rw [allAddedList_diffTreesAllNull cs ih]
    rfl

theorem flattenDiffList_length_diffTreesAllNull (cs : List VisualNode)
    (ih : ∀ c ∈ cs, (flattenDiff (diffTrees c none)).length = countNodes c) :
    (flattenDiffList (diffTreesAllNull cs)).length = countNodesList cs := by
  induction cs with
  | nil => simp
  | cons c cs ihl =>
    rw [diffTreesAllNull_cons, flattenDiffList_cons, List.length_append]
    rw [ih c (by simp)]
    rw [ihl (fun x hx => ih x (by simp [hx]))]
    simp

theorem flattenDiff_length_diffTrees_none (t : VisualNode) :
    (flattenDiff (diffTrees t none)).length = countNodes t := by
  induction t using VisualNode.ind with
  | step i l k cs ih =>
    rw [diffTrees_none_eq]
    simp only [VisualNode.id_mk, VisualNode.label_mk, VisualNode.children_mk,
      flattenDiff_mk, flattenDiffOpt_some, List.length_cons, countNodes_mk]
    rw [flattenDiffList_length_diffTreesAllNull cs ih]
    omega

@[simp] theorem deleteVisualNode_mk (i l : String) (k : NodeKind)
    (cs : List VisualNode) (id : String) :
    deleteVisualNode (.mk i l k cs) id =
      .mk i l k (deleteVisualNodeList (cs.filter (fun c => c.id != id)) id) := by
  rw [deleteVisualNode]

/- ──────────────────────────────────────────────────────────────────
   Claims.
   ────────────────────────────────────────────────────────────────── -/

/-- C3. Diff completeness: for every `VisualNode` tree `t`,
`diffTrees(t, null)` marks every node — the root and all descendants — as
`added`, and `flattenDiff` of that result has exactly as many entries as
`t` has nodes. -/
theorem diff_completeness (t : VisualNode) :
    allAdded (diffTrees t none) = true ∧
    (flattenDiff (diffTrees t none)).length = countNodes t :=
  ⟨allAdded_diffTrees_none t, flattenDiff_length_diffTrees_none t⟩

/-- C10. Delete preserves the root: for every tree and every id —
including the root's own id — `deleteVisualNode` returns a tree whose
root keeps its `id`, `label` and `kind`; the operator only filters
children lists, so deleting the root id is a no-op on the root itself. -/
theorem delete_preserves_root (t : VisualNode) (i : String) :
    (deleteVisualNode t i).id = t.id ∧
    (deleteVisualNode t i).label = t.label ∧
    (deleteVisualNode t i).kind = t.kind := by
  cases t with
  | mk j l k cs => simp

/-- The concrete one-section `VibeTree` of C6: section `"intro"`, mood
`isolation`/`stillness`, genre `ambient`, one instrument
`glacial bowed pad`, sonic detail `faint wind`, key `D minor`, no bpm and
no time signature. -/
def introVibeTree : Loose.VibeTree :=
  { root :=
    { concept := "concept",
      image_interpretation := none,
      sections :=
        [{ name := "intro",
           weight := 1/4,
           branches :=
             { mood := some { primary := some "isolation", nuances := some ["stillness"] },
               genre := some { primary := some "ambient", influences := some [] },
               instruments := some
                 [{ name := some "bowed pad", role := some "texture",
                    character := some "glacial" }],
               texture := none,
               sonic_details := some ["faint wind"],
               metadata := some
                 { tempo_feel := none, suggested_bpm := none,
                   key := some "D minor", time_signature := none },
               tree := none } }],
      global :=
        { overall_arc := some "arc", tags := some [], duration_seconds := some 180 } } }

/-- C6. Flatten on the concrete fixed-attribute instance: the output has
a `[Intro]` marker immediately followed by exactly the line
`(glacial bowed pad, faint wind, stillness)` (instruments, then sonic
details, then mood nuances), contains the line `Key: D minor`, and
contains no `BPM:` line and no `Time Signature:` line. -/
theorem flatten_concrete_intro :
    ∃ ls : List String,
      Loose.flattenLines introVibeTree = .ok ls ∧
      Loose.flattenTree introVibeTree = .ok (String.intercalate "\n" ls) ∧
      (∃ i : Nat, ls[i]? = some "[Intro]" ∧
        ls[i + 1]? = some "(glacial bowed pad, faint wind, stillness)") ∧
      "Key: D minor" ∈ ls ∧
      (∀ l ∈ ls, "BPM:".data.isPrefixOf l.data = false ∧
        "Time Signature:".data.isPrefixOf l.data = false) := by
  refine ⟨["Tags: ambient, isolation, bowed pad", "", "Lyrics:", "[Intro]",
    "(glacial bowed pad, faint wind, stillness)", "", "Key: D minor", "Duration: 180s"],
    rfl, rfl, ⟨3, rfl, rfl⟩, by decide, by decide⟩

/-- C9. Ingestion fails loudly: `transformSongCharacteristicsToVibeTree`
returns the descriptive error `"No vibe_tree data in API response"` when
the input is absent, the error
`"Invalid SongCharacteristics: missing root property"` when the unwrapped
payload (`data?.vibe_tree || data`) lacks `root` — returning no tree at
all in either case — and when `root` is present it returns a `VibeTree`
whose `root.sections` is non-empty. -/
theorem transform_fails_loudly (data : Option Loose.RawData) :
    (data = none →
      Loose.transformSongCharacteristicsToVibeTree data
        = .error "No vibe_tree data in API response") ∧
    (∀ d, data = some d →
      (match d.vibe_tree with | some v => v.root | none => d.root) = none →
      Loose.transformSongCharacteristicsToVibeTree data
        = .error "Invalid SongCharacteristics: missing root property") ∧
    (∀ d root, data = some d →
      (match d.vibe_tree with | some v => v.root | none => d.root) = some root →
      ∃ vt, Loose.transformSongCharacteristicsToVibeTree data = .ok vt ∧
        vt.root.sections ≠ []) := by
  refine ⟨?_, ?_, ?_⟩
  · rintro rfl
    rfl
  · rintro d rfl hroot
    simp only [Loose.transformSongCharacteristicsToVibeTree]
    rw [hroot]
  · rintro d root rfl hroot
    simp only [Loose.transformSongCharacteristicsToVibeTree]
    rw [hroot]
    exact ⟨_, rfl, by simp⟩

/-- Concrete input for the C9 witness: a payload with no `vibe_tree`
wrapper and a present `root`. -/
def rawDataW : Option Loose.RawData :=
  some { vibe_tree := none, root := some (.mk "Song" none none none) }

/-- Witness for C9 at `rawDataW`. -/
theorem transform_fails_loudly_witness :
    ∃ vt, Loose.transformSongCharacteristicsToVibeTree rawDataW = .ok vt ∧
      vt.root.sections ≠ [] :=
  (transform_fails_loudly rawDataW).2.2 _ _ rfl rfl

/- ── Edit operator (C8) ────────────────────────────────────────── -/

@[simp] theorem editVisualNode_mk (i l : String) (k : NodeKind) (cs : List VisualNode)
    (id newLabel : String) :
    editVisualNode (.mk i l k cs) id newLabel =
      if i = id then .mk i newLabel k cs
      else .mk i l k (editVisualNodeList cs id newLabel) := by
  rw [editVisualNode]

@[simp] theorem editVisualNodeList_nil (id newLabel : String) :
    editVisualNodeList [] id newLabel = [] := by
  rw [editVisualNodeList]

@[simp] theorem editVisualNodeList_cons (c : VisualNode) (cs : List VisualNode)
    (id newLabel : String) :
    editVisualNodeList (c :: cs) id newLabel =
      editVisualNode c id newLabel :: editVisualNodeList cs id newLabel := by
  rw [editVisualNodeList]

@[simp] theorem mapLabelAt_mk (id newLabel : String) (j lab : String) (k : NodeKind)
    (cs : List VisualNode) :
    mapLabelAt id newLabel (.mk j lab k cs) =
      .mk j (if j = id then newLabel else lab) k (mapLabelAtList id newLabel cs) := by
  rw [mapLabelAt]

@[simp] theorem mapLabelAtList_nil (id newLabel : String) :
    mapLabelAtList id newLabel [] = [] := by
  rw [mapLabelAtList]

@[simp] theorem mapLabelAtList_cons (id newLabel : String) (c : VisualNode)
    (cs : List VisualNode) :
    mapLabelAtList id newLabel (c :: cs) =
      mapLabelAt id newLabel c :: mapLabelAtList id newLabel cs := by
  rw [mapLabelAtList]

theorem id_mem_idsList (t : VisualNode) : t.id ∈ idsList t := by
  cases t with
  | mk i l k cs => simp

theorem mem_idsListList {x : String} {c : VisualNode} {cs : List VisualNode}
    (hc : c ∈ cs) (hx : x ∈ idsList c) : x ∈ idsListList cs := by
  induction cs with
  | nil => cases hc
  | cons d ds ih =>
    rw [idsListList_cons]
    cases hc with
    | head => exact List.mem_append_left _ hx
    | tail _ h => exact List.mem_append_right _ (ih h)

theorem nodup_of_mem_idsListList {cs : List VisualNode}
    (h : (idsListList cs).Nodup) : ∀ c ∈ cs, (idsList c).Nodup := by
  induction cs with
  | nil => intro c hc; cases hc
  | cons d ds ih =>
    rw [idsListList_cons] at h
    intro c hc
    cases hc with
    | head => exact h.of_append_left
    | tail _ hmem => exact ih h.of_append_right c hmem

theorem nodup_sibling_ids {cs : List VisualNode}
    (h : (idsListList cs).Nodup) : (cs.map VisualNode.id).Nodup := by
  induction cs with
  | nil => simp
  | cons c cs ih =>
    rw [idsListList_cons] at h
    have hdisj := List.disjoint_of_nodup_append h
    rw [List.map_cons, List.nodup_cons]
    refine ⟨?_, ih h.of_append_right⟩
    intro hmem
    rw [List.mem_map] at hmem
    obtain ⟨c2, hc2, hid⟩ := hmem
    exact hdisj (id_mem_idsList c) (hid ▸ mem_idsListList hc2 (id_mem_idsList c2))

theorem mapLabelAtList_congr_id (id newLabel : String) (cs : List VisualNode)
    (h : ∀ c ∈ cs, mapLabelAt id newLabel c = c) :
    mapLabelAtList id newLabel cs = cs := by
  induction cs with
  | nil => simp
  | cons c cs ihl =>
    rw [mapLabelAtList_cons, h c (by simp), ihl (fun x hx => h x (by simp [hx]))]

theorem editVisualNodeList_congr_id (id newLabel : String) (cs : List VisualNode)
    (h : ∀ c ∈ cs, editVisualNode c id newLabel = c) :
    editVisualNodeList cs id newLabel = cs := by
  induction cs with
  | nil => simp
  | cons c cs ihl =>
    rw [editVisualNodeList_cons, h c (by simp), ihl (fun x hx => h x (by simp [hx]))]

theorem mapLabelAt_not_mem (id newLabel : String) :
    ∀ t : VisualNode, id ∉ idsList t → mapLabelAt id newLabel t = t := by
  intro t
  induction t using VisualNode.ind with
  | step j lab k cs ih =>
    intro h
    rw [idsList_mk, List.mem_cons] at h
    push_neg at h
    rw [mapLabelAt_mk, if_neg (fun hj => h.1 hj.symm)]
    rw [mapLabelAtList_congr_id id newLabel cs
      (fun c hc => ih c hc (fun hmem => h.2 (mem_idsListList hc hmem)))]

theorem editVisualNode_not_mem (id newLabel : String) :
    ∀ t : VisualNode, id ∉ idsList t → editVisualNode t id newLabel = t := by
  intro t
  induction t using VisualNode.ind with
  | step j lab k cs ih =>
    intro h
    rw [idsList_mk, List.mem_cons] at h
    push_neg at h
    rw [editVisualNode_mk, if_neg (fun hj => h.1 hj.symm)]
    rw [editVisualNodeList_congr_id id newLabel cs
      (fun c hc => ih c hc (fun hmem => h.2 (mem_idsListList hc hmem)))]

theorem editVisualNode_eq_mapLabelAt (id newLabel : String) :
    ∀ t : VisualNode, distinctIds t →
      editVisualNode t id newLabel = mapLabelAt id newLabel t := by
  intro t
  induction t using VisualNode.ind with
  | step j lab k cs ih =>
    intro h
    unfold distinctIds at h
    rw [idsList_mk, List.nodup_cons] at h
    rw [editVisualNode_mk, mapLabelAt_mk]
    by_cases hj : j = id
    · rw [if_pos hj, if_pos hj]
      rw [mapLabelAtList_congr_id id newLabel cs
        (fun c hc => mapLabelAt_not_mem id newLabel c
          (fun hmem => h.1 (hj ▸ mem_idsListList hc hmem)))]
    · rw [if_neg hj, if_neg hj]
      have hlist : editVisualNodeList cs id newLabel = mapLabelAtList id newLabel cs := by
        have hnd := h.2
        clear h
        induction cs with
        | nil => simp
        | cons c cs ihl =>
          rw [idsListList_cons] at hnd
          rw [editVisualNodeList_cons, mapLabelAtList_cons]
          rw [ih c (by simp) hnd.of_append_left]
          rw [ihl (fun x hx => ih x (by simp [hx])) hnd.of_append_right]
      rw [hlist]

/-- Concrete tree for the C8 witness. -/
def editWitnessTree : VisualNode :=
  .mk "a" "root" .section [.mk "b" "x" .mood [], .mk "c" "y" .custom []]

/-- C8. Edit id-stability and silent no-op: on a tree with pairwise
distinct ids, `editVisualNode` computes exactly the structural map that
rewrites the label of the node matching `id` to `newLabel` and leaves
every other node's id, label, kind and position unchanged
(`mapLabelAt`); and when no node carries `id`, it returns the input tree
unchanged (it is a total function, so it never throws). -/
theorem edit_id_stability (t : VisualNode) (id newLabel : String)
    (h : distinctIds t) :
    editVisualNode t id newLabel = mapLabelAt id newLabel t ∧
    (id ∉ idsList t → editVisualNode t id newLabel = t) :=
  ⟨editVisualNode_eq_mapLabelAt id newLabel t h,
   editVisualNode_not_mem id newLabel t⟩

/-- Witness for C8: a fresh id is a silent no-op on a concrete tree. -/
theorem edit_id_stability_witness :
    editVisualNode editWitnessTree "zz" "new" = editWitnessTree :=
  (edit_id_stability editWitnessTree "zz" "new" (by decide)).2 (by decide)

/- ── Diff reflexivity (C4) ─────────────────────────────────────── -/

theorem findNodeById_self (t : VisualNode) : findNodeById t t.id = some t := by
  cases t with
  | mk i l k cs => simp [findNodeById]

theorem find?_self_of_nodup {cs : List VisualNode}
    (h : (cs.map VisualNode.id).Nodup) {c : VisualNode} (hc : c ∈ cs) :
    cs.find? (fun p => p.id == c.id) = some c := by
  induction cs with
  | nil => cases hc
  | cons d ds ih =>
    rw [List.map_cons, List.nodup_cons] at h
    by_cases hpd : d.id = c.id
    · rw [List.find?_cons_of_pos _ (by simp [hpd])]
      cases hc with
      | head => rfl
      | tail _ hmem =>
        exact absurd (hpd ▸ List.mem_map_of_mem VisualNode.id hmem) h.1
    · rw [List.find?_cons_of_neg _ (by simp [hpd])]
      cases hc with
      | head => exact absurd rfl hpd
      | tail _ hmem => exact ih h.2 hmem

theorem diffRemovedChildren_all_matched (ps cs : List VisualNode)
    (h : ∀ p ∈ ps, cs.any (fun c => c.id == p.id) = true) :
    diffRemovedChildren ps cs = [] := by
  induction ps with
  | nil => simp
  | cons p ps ih =>
    rw [diffRemovedChildren_cons, if_pos (h p (by simp))]
    exact ih (fun q hq => h q (by simp [hq]))

theorem allUnchangedList_diffCurrentChildren_self (cs0 cs : List VisualNode)
    (hfind : ∀ c ∈ cs0, cs.find? (fun p => p.id == c.id) = some c)
    (hall : ∀ c ∈ cs0, allUnchanged (diffTrees c (some c)) = true) :
    allUnchangedList (diffCurrentChildren cs0 cs) = true := by
  induction cs0 with
  | nil => simp
  | cons c cs0 ih =>
    rw [diffCurrentChildren_cons, allUnchangedList_cons]
    rw [hfind c (by simp), hall c (by simp)]
    rw [ih (fun x hx => hfind x (by simp [hx])) (fun x hx => hall x (by simp [hx]))]
    rfl

/-- C4. Diff reflexivity: for every tree with pairwise distinct ids,
`diffTrees(t, t)` marks the root and every descendant `unchanged`. -/
theorem diff_reflexive (t : VisualNode) (h : distinctIds t) :
    allUnchanged (diffTrees t (some t)) = true := by
  induction t using VisualNode.ind with
  | step i l k cs ih =>
    unfold distinctIds at h
    rw [idsList_mk, List.nodup_cons] at h
    have hf : findNodeById (VisualNode.mk i l k cs) (VisualNode.mk i l k cs).id
        = some (VisualNode.mk i l k cs) := findNodeById_self _
    rw [diffTrees_some_found _ _ _ hf]
    simp only [VisualNode.label_mk, VisualNode.children_mk, if_pos rfl]
    have hrem : diffRemovedChildren cs cs = [] :=
      diffRemovedChildren_all_matched cs cs
        (fun p hp => List.any_eq_true.2 ⟨p, hp, by simp⟩)
    have hcur : allUnchangedList (diffCurrentChildren cs cs) = true :=
      allUnchangedList_diffCurrentChildren_self cs cs
        (fun c hc => find?_self_of_nodup (nodup_sibling_ids h.2) hc)
        (fun c hc => ih c hc (nodup_of_mem_idsListList h.2 c hc))
    rw [hrem, List.append_nil]
    by_cases hlen : (diffCurrentChildren cs cs).length > 0
    · rw [if_pos hlen]
      simp only [allUnchanged_mk, allUnchangedOpt_some, hcur]
      rfl
    · rw [if_neg hlen]
      have hnil : cs = [] := by
        cases cs with
        | nil => rfl
        | cons c cs2 =>
          rw [diffCurrentChildren_cons] at hlen
          simp at hlen
      subst hnil
      simp

/-- Concrete distinct-id tree for the C4 witness. -/
def reflexWitnessTree : VisualNode :=
  .mk "r" "root" .section [.mk "m" "calm" .mood [.mk "n" "soft" .nuance []]]

/-- Witness for C4 at `reflexWitnessTree`. -/
theorem diff_reflexive_witness :
    allUnchanged (diffTrees reflexWitnessTree (some reflexWitnessTree)) = true :=
  diff_reflexive reflexWitnessTree (by decide)

/- ── Removed subtrees in the diff (C2) ─────────────────────────── -/

theorem mem_diffRemovedChildren {ps cs : List VisualNode} {pc : VisualNode}
    (hpc : pc ∈ ps) (hmiss : cs.any (fun c => c.id == pc.id) = false) :
    NodeDiff.mk pc.id .removed (some pc.label) (some (diffTreesAllNull pc.children))
      ∈ diffRemovedChildren ps cs := by
  induction ps with
  | nil => cases hpc
  | cons p ps ih =>
    rw [diffRemovedChildren_cons]
    cases hpc with
    | head =>
      rw [if_neg (by rw [hmiss]; exact Bool.false_ne_true)]
      exact List.mem_cons_self _ _
    | tail _ hmem =>
      by_cases hp : cs.any (fun c => c.id == p.id) = true
      · rw [if_pos hp]
        exact ih hmem
      · rw [if_neg hp]
        exact List.mem_cons_of_mem _ (ih hmem)

/-- Trees showing that a removed subtree's descendants are NOT tagged
`removed`: previous child `a` (with grandchild `b`) disappears from the
current tree. -/
def cexCurrent : VisualNode := .mk "r" "root" .section []

def cexPrevious : VisualNode :=
  .mk "r" "root" .section [.mk "a" "childA" .custom [.mk "b" "childB" .custom []]]

/-- The diff entry `diffTrees` emits for the vanished child `a`: its
grandchild `b` carries status `added`, not `removed`. -/
def cexRemovedEntry : NodeDiff :=
  .mk "a" .removed (some "childA")
    (some [.mk "b" .added (some "childB") (some [])])

/-- Counterexample to C2 as stated: in `diffTrees(cexCurrent,
cexPrevious)` the emitted subtree for the removed child `a` is
`cexRemovedEntry`, and it is NOT tagged `removed` at every node — its
descendant `b` carries `added`. -/
theorem diff_removed_subtree_counterexample :
    ((diffTrees cexCurrent (some cexPrevious)).childrenDiff.getD []).head?
        = some cexRemovedEntry ∧
    allRemoved cexRemovedEntry = false := by
  constructor
  · have hf : findNodeById cexPrevious cexCurrent.id = some cexPrevious := rfl
    rw [diffTrees_some_found _ _ _ hf]
    simp only [cexCurrent, cexPrevious, cexRemovedEntry, VisualNode.children_mk,
      NodeDiff.childrenDiff_mk, diffCurrentChildren_nil, diffRemovedChildren_cons,
      diffRemovedChildren_nil, diffTreesAllNull_cons, diffTreesAllNull_nil,
      diffTrees_none_eq, List.any_nil, List.nil_append, VisualNode.id_mk,
      VisualNode.label_mk]
    simp
  · decide

/-- C2 (amended). A previous child with no id-counterpart among the
current children is emitted as an entry tagged `removed` whose
`childrenDiff` is built by the added-recursion `diffTrees(·, null)`: the
removed child itself carries `removed`, while every node strictly below
it carries `added`. -/
theorem diff_removed_subtree (cur prev pn pc : VisualNode)
    (hfind : findNodeById prev cur.id = some pn)
    (hpc : pc ∈ pn.children)
    (hmiss : cur.children.any (fun c => c.id == pc.id) = false) :
    ∃ cd, (diffTrees cur (some prev)).childrenDiff = some cd ∧
      NodeDiff.mk pc.id .removed (some pc.label) (some (diffTreesAllNull pc.children)) ∈ cd ∧
      allAddedList (diffTreesAllNull pc.children) = true := by
  rw [diffTrees_some_found _ _ _ hfind]
  have hmem := mem_diffRemovedChildren hpc hmiss
  have hlen : (diffCurrentChildren cur.children pn.children
      ++ diffRemovedChildren pn.children cur.children).length > 0 := by
    have hne : diffRemovedChildren pn.children cur.children ≠ [] :=
      List.ne_nil_of_mem hmem
    have h2 : 0 < (diffRemovedChildren pn.children cur.children).length :=
      List.length_pos.mpr hne
    rw [List.length_append]
    omega
  simp only [NodeDiff.childrenDiff_mk]
  rw [if_pos hlen]
  exact ⟨_, rfl, List.mem_append_right _ hmem,
    allAddedList_diffTreesAllNull pc.children (fun c _ => allAdded_diffTrees_none c)⟩

/-- Concrete trees for the C2 witness. -/
def remWitChild : VisualNode := .mk "a" "childA" .custom []

def remWitCurrent : VisualNode := .mk "r" "root" .section []

def remWitPrevious : VisualNode := .mk "r" "root" .section [remWitChild]

/-- Witness for the amended C2 at the concrete trees. -/
theorem diff_removed_subtree_witness :
    ∃ cd, (diffTrees remWitCurrent (some remWitPrevious)).childrenDiff = some cd ∧
      NodeDiff.mk remWitChild.id .removed (some remWitChild.label)
        (some (diffTreesAllNull remWitChild.children)) ∈ cd ∧
      allAddedList (diffTreesAllNull remWitChild.children) = true :=
  diff_removed_subtree remWitCurrent remWitPrevious remWitPrevious remWitChild
    rfl (List.Mem.head _) rfl

/- ── Flatten totality (C5) ─────────────────────────────────────── -/

theorem except_bind_ok {ε α β : Type} (a : α) (f : α → Except ε β) :
    (Except.ok a >>= f) = f a := rfl

theorem except_map_ok {ε α β : Type} (f : α → β) (a : α) :
    (f <$> (Except.ok a : Except ε α)) = Except.ok (f a) := rfl

theorem flattenLines_isOk (t : Loose.VibeTree) :
    ∃ ls, Loose.flattenLines t = .ok ls := by
  unfold Loose.flattenLines
  by_cases h : Loose.hasTreeNode t.root
  · rw [if_pos h]
    unfold Loose.hasTreeNode at h
    rw [Bool.and_eq_true] at h
    obtain ⟨hlen, htree⟩ := h
    cases hsec : t.root.sections[0]? with
    | none =>
      exfalso
      cases hcs : t.root.sections with
      | nil => rw [hcs] at hlen; simp at hlen
      | cons s ss => rw [hcs] at hsec; simp at hsec
    | some s0 =>
      rw [hsec] at htree
      obtain ⟨tr, htr⟩ := Option.isSome_iff_exists.mp (by simpa using htree)
      refine ⟨[Loose.flattenSongNode (some tr)], ?_⟩
      simp only [Loose.jsGet, except_bind_ok, htr, except_map_ok]
      rfl
  · rw [if_neg h]
    exact ⟨_, rfl⟩

/- ── Projection/commit round-trip (C1) ─────────────────────────── -/

theorem allocNodes_labels (ls : List String) (k : NodeKind) :
    ∀ c : Nat, ((allocNodes ls k c).1).map VisualNode.label = ls := by
  induction ls with
  | nil => intro c; rw [allocNodes]; rfl
  | cons l ls ih =>
    intro c
    rw [allocNodes]
    simp only [List.map_cons, VisualNode.label_mk]
    rw [ih]

theorem reconInstruments_eq (insts : List Instrument) :
    ∀ (rest : List Instrument) (j : Nat) (ns : List VisualNode),
      ns.map VisualNode.label = rest.map Instrument.name →
      (∀ m : Nat, insts[j + m]? = rest[m]?) →
      reconInstruments insts j ns = rest := by
  intro rest
  induction rest with
  | nil =>
    intro j ns hmap hidx
    cases ns with
    | nil => rw [reconInstruments]
    | cons n ns => simp at hmap
  | cons r rest ih =>
    intro j ns hmap hidx
    cases ns with
    | nil => simp at hmap
    | cons n ns =>
      simp only [List.map_cons, List.cons.injEq] at hmap
      obtain ⟨hlab, hmap2⟩ := hmap
      have h0 : insts[j]? = some r := by
        have hx := hidx 0
        simpa using hx
      have hrest : ∀ m, insts[j + 1 + m]? = rest[m]? := by
        intro m
        have hx := hidx (m + 1)
        rw [show j + (m + 1) = j + 1 + m by omega] at hx
        simpa using hx
      rw [reconInstruments]
      rw [h0, hlab]
      rw [ih (j + 1) ns hmap2 hrest]
      simp

/-- C1. Projection/commit round-trip: for every fixed-attribute Section
with non-empty mood-nuance, genre-influence, instrument and sonic-detail
groups, folding the unedited projection back over the original section
reproduces the section exactly — name, weight, mood, genre, instruments
(roles and characters preserved by index since the count is unchanged),
texture, sonic details and metadata. -/
theorem projection_commit_roundtrip (S : Section) (c : Nat)
    (h1 : S.branches.mood.nuances ≠ []) (h2 : S.branches.genre.influences ≠ [])
    (h3 : S.branches.instruments ≠ []) (h4 : S.branches.sonic_details ≠ []) :
    visualTreeToSection (sectionToVisualTree S c).1 S = S := by
  obtain ⟨nm, w, ⟨⟨mp, mn⟩, ⟨gp, gi⟩, insts, ⟨td, tm, ts⟩, sd, md⟩⟩ := S
  simp only [sectionToVisualTree, visualTreeToSection, applyVisualChild,
    VisualNode.children_mk, VisualNode.label_mk, VisualNode.kind_mk,
    List.foldl_cons, List.foldl_nil]
  rw [allocNodes_labels, allocNodes_labels, allocNodes_labels]
  rw [reconInstruments_eq insts insts 0 _ (allocNodes_labels _ _ _)
    (fun m => by simp)]

/-- Concrete section for the C1 witness. -/
def roundtripWitnessSection : Section :=
  { name := "intro",
    weight := 1/4,
    branches :=
      { mood := { primary := "isolation", nuances := ["stillness"] },
        genre := { primary := "ambient", influences := ["drone"] },
        instruments := [{ name := "bowed pad", role := "lead", character := "glacial" }],
        texture := { density := "sparse", movement := "static", space := "vast" },
        sonic_details := ["faint wind"],
        metadata := { tempo_feel := "slow", suggested_bpm := some 60,
                      key := some "D minor", time_signature := some "4/4" } } }

/-- Witness for C1 at `roundtripWitnessSection`, counter 0. -/
theorem projection_commit_roundtrip_witness :
    visualTreeToSection (sectionToVisualTree roundtripWitnessSection 0).1
        roundtripWitnessSection = roundtripWitnessSection :=
  projection_commit_roundtrip roundtripWitnessSection 0
    (by decide) (by decide) (by decide) (by decide)

/- ── Projection id freshness (C7) ──────────────────────────────── -/

@[simp] theorem stripIds_mk (i l : String) (k : NodeKind) (cs : List VisualNode) :
    stripIds (.mk i l k cs) = .mk "" l k (stripIdsList cs) := by
  rw [stripIds]

@[simp] theorem stripIdsList_nil : stripIdsList [] = [] := by
  rw [stripIdsList]

@[simp] theorem stripIdsList_cons (c : VisualNode) (cs : List VisualNode) :
    stripIdsList (c :: cs) = stripIds c :: stripIdsList cs := by
  rw [stripIdsList]

theorem stripIdsList_allocNodes (ls : List String) (k : NodeKind) :
    ∀ c, stripIdsList (allocNodes ls k c).1 = ls.map (fun l => .mk "" l k []) := by
  induction ls with
  | nil => intro c; rw [allocNodes]; rfl
  | cons l ls ih =>
    intro c
    rw [allocNodes]
    simp only [List.map_cons, stripIdsList_cons, stripIds_mk, stripIdsList_nil]
    rw [ih]

theorem allocNodes_counter (ls : List String) (k : NodeKind) :
    ∀ c, (allocNodes ls k c).2 = c + ls.length := by
  induction ls with
  | nil => intro c; rw [allocNodes]; rfl
  | cons l ls ih =>
    intro c
    rw [allocNodes]
    simp only [nodeId, List.length_cons]
    rw [ih]
    omega

theorem allocNodes_ids_bound (ls : List String) (k : NodeKind) :
    ∀ c, ∀ x ∈ idsListList (allocNodes ls k c).1,
      ∃ m, x = "vn-" ++ Nat.repr m ∧ c < m ∧ m ≤ c + ls.length := by
  induction ls with
  | nil =>
    intro c x hx
    rw [allocNodes] at hx
    simp at hx
  | cons l ls ih =>
    intro c x hx
    rw [allocNodes] at hx
    simp only [idsListList_cons, idsList_mk, idsListList_nil, nodeId,
      List.mem_append, List.mem_cons, List.not_mem_nil, or_false] at hx
    rcases hx with hx | hx
    · exact ⟨c + 1, by simpa using hx, by omega,
        by simp only [List.length_cons]; omega⟩
    · obtain ⟨m, hm, h1, h2⟩ := ih (c + 1) x hx
      exact ⟨m, hm, by omega, by simp only [List.length_cons]; omega⟩

/-- The shape (labels, kinds, structure) of the projection depends only
on the section, not on the id counter. -/
theorem stripIds_sectionToVisualTree (S : Section) (c d : Nat) :
    stripIds (sectionToVisualTree S c).1 = stripIds (sectionToVisualTree S d).1 := by
  simp only [sectionToVisualTree, nodeId, stripIds_mk, stripIdsList_cons,
    stripIdsList_nil, stripIdsList_allocNodes]

theorem sectionToVisualTree_counter (S : Section) (c : Nat) :
    (sectionToVisualTree S c).2 =
      c + S.branches.mood.nuances.length + S.branches.genre.influences.length
        + S.branches.instruments.length + S.branches.sonic_details.length + 6 := by
  simp only [sectionToVisualTree, nodeId]
  rw [allocNodes_counter, allocNodes_counter, allocNodes_counter, allocNodes_counter]
  simp only [List.length_map]
  omega

theorem sectionToVisualTree_ids_bound (S : Section) (c : Nat) :
    ∀ x ∈ idsList (sectionToVisualTree S c).1,
      ∃ m, x = "vn-" ++ Nat.repr m ∧ c < m ∧ m ≤ (sectionToVisualTree S c).2 := by
  intro x hx
  rw [sectionToVisualTree_counter]
  simp only [sectionToVisualTree, nodeId, idsList_mk, idsListList_cons,
    idsListList_nil, List.mem_cons, List.mem_append, List.not_mem_nil, or_false] at hx
  have e1 := allocNodes_counter S.branches.mood.nuances .nuance c
  have e2 := allocNodes_counter S.branches.genre.influences .influence
    ((allocNodes S.branches.mood.nuances .nuance c).2 + 1)
  have e3 := allocNodes_counter (S.branches.instruments.map Instrument.name) .instrument
    ((allocNodes S.branches.genre.influences .influence
      ((allocNodes S.branches.mood.nuances .nuance c).2 + 1)).2 + 1)
  have e4 := allocNodes_counter S.branches.sonic_details .detail
    ((allocNodes (S.branches.instruments.map Instrument.name) .instrument
      ((allocNodes S.branches.genre.influences .influence
        ((allocNodes S.branches.mood.nuances .nuance c).2 + 1)).2 + 1)).2 + 1 + 1)
  rw [List.length_map] at e3
  rcases hx with hx | (hx | hx) | (hx | hx) | (hx | hx) | hx | hx | hx
  · exact ⟨_, hx, by omega, by omega⟩
  · exact ⟨_, hx, by omega, by omega⟩
  · obtain ⟨m, hm, h1, h2⟩ := allocNodes_ids_bound S.branches.mood.nuances .nuance c x hx
    exact ⟨m, hm, by omega, by omega⟩
  · exact ⟨_, hx, by omega, by omega⟩
  · obtain ⟨m, hm, h1, h2⟩ := allocNodes_ids_bound S.branches.genre.influences .influence _ x hx
    exact ⟨m, hm, by omega, by omega⟩
  · exact ⟨_, hx, by omega, by omega⟩
  · obtain ⟨m, hm, h1, h2⟩ := allocNodes_ids_bound
      (S.branches.instruments.map Instrument.name) .instrument _ x hx
    rw [List.length_map] at h2
    exact ⟨m, hm, by omega, by omega⟩
  · exact ⟨_, hx, by omega, by omega⟩
  · exact ⟨_, hx, by omega, by omega⟩
  · obtain ⟨m, hm, h1, h2⟩ := allocNodes_ids_bound S.branches.sonic_details .detail _ x hx
    exact ⟨m, hm, by omega, by omega⟩

/-- Concrete section for the C7 counterexample and witness. -/
def pureSectionCex : Section :=
  { name := "s", weight := 1/4,
    branches :=
      { mood := { primary := "m", nuances := [] },
        genre := { primary := "g", influences := [] },
        instruments := [],
        texture := { density := "sparse", movement := "static", space := "open" },
        sonic_details := [],
        metadata := { tempo_feel := "", suggested_bpm := none, key := none,
                      time_signature := none } } }

/-- Counterexample to C7 as stated: two consecutive calls of
`sectionToVisualTree` on the same section do NOT produce equal outputs —
the id counter has advanced, so all ids (here the root ids `vn-6` and
`vn-12`) differ. -/
theorem projection_not_pure_counterexample :
    (sectionToVisualTree pureSectionCex 0).1
      ≠ (sectionToVisualTree pureSectionCex ((sectionToVisualTree pureSectionCex 0).2)).1 := by
  intro h
  have h2 := congrArg VisualNode.id h
  exact absurd h2 (by decide)

/-- C7 (amended). `sectionToVisualTree` is a deterministic function of
its input section and the id-counter state: the shape, labels and kinds
of its output depend only on the section (`stripIds` agrees across any
two counter states), and each call allocates fresh ids from the counter,
so the id sets of two consecutive calls are disjoint. -/
theorem projection_counter_fresh (S : Section) (c : Nat) :
    stripIds (sectionToVisualTree S c).1 =
      stripIds (sectionToVisualTree S ((sectionToVisualTree S c).2)).1 ∧
    ∀ x ∈ idsList (sectionToVisualTree S c).1,
      x ∉ idsList (sectionToVisualTree S ((sectionToVisualTree S c).2)).1 := by
  refine ⟨stripIds_sectionToVisualTree S c _, ?_⟩
  intro x hx hx2
  obtain ⟨m, hxm, hcm, hmc⟩ := sectionToVisualTree_ids_bound S c x hx
  obtain ⟨m2, hxm2, hcm2, hmc2⟩ := sectionToVisualTree_ids_bound S _ x hx2
  have hmm : m = m2 := vnId_injective (hxm ▸ hxm2)
  omega

/-- Witness for the amended C7: the first call's id `vn-1` does not
appear in the second call's tree. -/
theorem projection_counter_fresh_witness :
    "vn-1" ∉ idsList
      (sectionToVisualTree pureSectionCex ((sectionToVisualTree pureSectionCex 0).2)).1 :=
  (projection_counter_fresh pureSectionCex 0).2 "vn-1" (by decide)

/-- C5. Flatten totality: `flattenTree` produces a string for every
well-formed `VibeTree`, including trees whose sections have absent/null
mood, genre, texture, empty metadata or missing bpm/key/time-signature —
every optional access is guarded, so absent fields are omitted from the
output instead of failing (no reachable `TypeError`). -/
theorem flatten_total (t : Loose.VibeTree) :
    ∃ s, Loose.flattenTree t = .ok s := by
  obtain ⟨ls, hls⟩ := flattenLines_isOk t
  exact ⟨String.intercalate "\n" ls, by rw [Loose.flattenTree, hls]; rfl⟩

end Vibe
